import Mathlib

/-!
Shallow embedding of the horoscope-video production pipeline of this
repository (main.py and editor.py): section planning and ordering, audio
measurement, the duration-budget trimming policy, scene-render timing,
karaoke word lookup, visual theme resolution and final assembly with the
hard duration cap.  Durations are modelled as rationals; external
capabilities (speech synthesis, the browser renderer, the filesystem) are
modelled as explicit oracle parameters.
-/

namespace Astro

/-! ## Section planner (main.py lines 137-146) -/

/-- Fixed priority order of script sections, main.py line 137. -/
def priority_order : List String :=
  ["hook", "intro", "love", "career", "money", "health", "advice",
   "lucky_color", "lucky_number", "best_time", "key_dates", "affirmation"]

/-- Python dict lookup on a script, modelled as first match in an
association list (Python dict keys are unique). -/
def scriptLookup (script : List (String × String)) (k : String) : Option String :=
  (script.find? (fun p => p.1 == k)).map Prod.snd

/-- The per-section condition of main.py lines 142-145: the key is present,
its value truthy (non-empty), its length at least 5, and it is not the
metadata key. -/
def qualifies (script : List (String × String)) (sec : String) : Bool :=
  match scriptLookup script sec with
  | some v => !(v == "") && decide (5 ≤ v.length) && !(sec == "metadata")
  | none => false

/-- The planner loop of main.py lines 140-146: iterate the priority keys
followed by the remaining script keys in script order, keeping the
qualifying ones. -/
def active_sections (script : List (String × String)) : List String :=
  (priority_order ++ (script.map Prod.fst).filter (fun k => !priority_order.contains k)).filter
    (fun sec => qualifies script sec)

/-! ## Duration budgeter (main.py lines 208-232) -/

/-- Drop-priority list of main.py line 218. -/
def drop_candidates : List String :=
  ["intro", "health", "lucky_number", "lucky_color", "best_time", "money"]

/-- One iteration of the trimming loop, main.py lines 220-230.  The break
when the running total reaches the target is modelled as a per-candidate
skip: once the total is at most the target no further candidate changes
the state, so the resulting state is identical. -/
def trimStep {α : Type} (target : ℚ) (dur : α → ℚ)
    (st : List (String × α) × ℚ) (cand : String) : List (String × α) × ℚ :=
  if st.2 ≤ target then st
  else
    match st.1.find? (fun q => q.1 == cand) with
    | some p => (st.1.eraseP (fun q => q.1 == cand), st.2 - dur p.2)
    | none => st

/-- The smart-trimming phase of main.py lines 214-231: if the summed
duration exceeds the target, walk the drop candidates in order, removing
each one present until the total is within the target or the candidates
run out. -/
def smart_trim {α : Type} (dur : α → ℚ) (secs : List (String × α)) (target : ℚ) :
    List (String × α) :=
  if (secs.map (fun q => dur q.2)).sum ≤ target then secs
  else
    (drop_candidates.foldl (trimStep target dur)
      (secs, (secs.map (fun q => dur q.2)).sum)).1

/-- Period-type target runtime, main.py lines 209-212. -/
def target_duration (period_type : String) : ℚ :=
  if period_type == "Daily" then 58 else 600

/-! ## Basic lemmas about the trimming fold -/

theorem trimStep_fst_sublist {α : Type} (target : ℚ) (dur : α → ℚ)
    (st : List (String × α) × ℚ) (cand : String) :
    (trimStep target dur st cand).1.Sublist st.1 := by
  unfold trimStep
  split
  · exact List.Sublist.refl _
  · split
    · exact List.eraseP_sublist _
    · exact List.Sublist.refl _

theorem foldl_trim_sublist {α : Type} (target : ℚ) (dur : α → ℚ)
    (cands : List String) (st : List (String × α) × ℚ) :
    (cands.foldl (trimStep target dur) st).1.Sublist st.1 := by
  induction cands generalizing st with
  | nil => exact List.Sublist.refl _
  | cons c cs ih =>
      exact (ih (trimStep target dur st c)).trans (trimStep_fst_sublist target dur st c)

theorem eraseP_filter_of_imp {α : Type} (P : String × α → Bool) (cand : String)
    (l : List (String × α)) (h : ∀ q : String × α, q.1 = cand → P q = false) :
    (l.eraseP (fun q => q.1 == cand)).filter P = l.filter P := by
  induction l with
  | nil => rfl
  | cons a l ih =>
      by_cases ha : a.1 = cand
      · rw [List.eraseP_cons_of_pos (p := fun q : String × α => q.1 == cand) (by simpa using ha)]
        have hPa : P a = false := h a ha
        simp [List.filter_cons, hPa]
      · rw [List.eraseP_cons_of_neg (p := fun q : String × α => q.1 == cand) (by simpa using ha)]
        simp only [List.filter_cons]
        cases hPa : P a
        · simpa [hPa] using ih
        · simpa [hPa] using ih

theorem foldl_trim_filter {α : Type} (target : ℚ) (dur : α → ℚ)
    (cands : List String) (hc : ∀ c ∈ cands, c ∈ drop_candidates)
    (st : List (String × α) × ℚ) :
    ((cands.foldl (trimStep target dur) st).1.filter
        (fun p => !(drop_candidates.contains p.1)))
      = st.1.filter (fun p => !(drop_candidates.contains p.1)) := by
  induction cands generalizing st with
  | nil => rfl
  | cons c cs ih =>
      rw [List.foldl_cons]
      rw [ih (fun x hx => hc x (List.mem_cons_of_mem c hx))]
      unfold trimStep
      split
      · rfl
      · split
        · exact eraseP_filter_of_imp _ c st.1 (fun q hq => by
            have hmem : q.1 ∈ drop_candidates := hq ▸ hc c (List.mem_cons_self c cs)
            have : drop_candidates.contains q.1 = true := List.elem_eq_true_of_mem hmem
            simp only [this, Bool.not_true])
        · rfl

theorem sum_map_eraseP {α : Type} (dur : α → ℚ) (l : List (String × α))
    (cand : String) (p : String × α)
    (h : l.find? (fun q => q.1 == cand) = some p) :
    ((l.eraseP (fun q => q.1 == cand)).map (fun q => dur q.2)).sum
      = (l.map (fun q => dur q.2)).sum - dur p.2 := by
  induction l with
  | nil => simp at h
  | cons a l ih =>
      by_cases ha : (a.1 == cand) = true
      · rw [List.find?_cons_of_pos (p := fun q : String × α => q.1 == cand) l ha] at h
        injection h with h
        subst h
        rw [List.eraseP_cons_of_pos (p := fun q : String × α => q.1 == cand) ha]
        simp only [List.map_cons, List.sum_cons]
        ring
      · rw [List.find?_cons_of_neg (p := fun q : String × α => q.1 == cand) l ha] at h
        rw [List.eraseP_cons_of_neg (p := fun q : String × α => q.1 == cand) ha]
        simp only [List.map_cons, List.sum_cons, ih h]
        ring

theorem trimStep_sum {α : Type} (target : ℚ) (dur : α → ℚ)
    (st : List (String × α) × ℚ) (cand : String)
    (h : st.2 = (st.1.map (fun q => dur q.2)).sum) :
    (trimStep target dur st cand).2
      = ((trimStep target dur st cand).1.map (fun q => dur q.2)).sum := by
  unfold trimStep
  split
  · exact h
  · cases hfind : st.1.find? (fun q => q.1 == cand) with
    | none => exact h
    | some p =>
        simp only
        rw [sum_map_eraseP dur st.1 cand p hfind, h]

theorem foldl_trim_sum {α : Type} (target : ℚ) (dur : α → ℚ)
    (cands : List String) (st : List (String × α) × ℚ)
    (h : st.2 = (st.1.map (fun q => dur q.2)).sum) :
    (cands.foldl (trimStep target dur) st).2
      = ((cands.foldl (trimStep target dur) st).1.map (fun q => dur q.2)).sum := by
  induction cands generalizing st with
  | nil => exact h
  | cons c cs ih => exact ih (trimStep target dur st c) (trimStep_sum target dur st c h)

theorem foldl_trim_of_le {α : Type} (target : ℚ) (dur : α → ℚ)
    (cands : List String) (st : List (String × α) × ℚ) (h : st.2 ≤ target) :
    cands.foldl (trimStep target dur) st = st := by
  induction cands with
  | nil => rfl
  | cons c cs ih =>
      rw [List.foldl_cons]
      have hstep : trimStep target dur st c = st := by
        unfold trimStep
        rw [if_pos h]
      rw [hstep]
      exact ih

theorem find?_eraseP_nodup {α : Type} (l : List (String × α)) (cand : String)
    (hnodup : (l.map Prod.fst).Nodup) :
    (l.eraseP (fun q => q.1 == cand)).find? (fun q => q.1 == cand) = none := by
  induction l with
  | nil => rfl
  | cons a l ih =>
      rw [List.map_cons, List.nodup_cons] at hnodup
      by_cases ha : (a.1 == cand) = true
      · rw [List.eraseP_cons_of_pos (p := fun q : String × α => q.1 == cand) ha]
        rw [List.find?_eq_none]
        intro q hq hbeq
        have hq1 : q.1 ∈ l.map Prod.fst := List.mem_map_of_mem Prod.fst hq
        have ha2 : a.1 = cand := by simpa using ha
        have hq2 : q.1 = cand := by simpa using hbeq
        apply hnodup.1
        rw [ha2, ← hq2]
        exact hq1
      · rw [List.eraseP_cons_of_neg (p := fun q : String × α => q.1 == cand) ha]
        rw [List.find?_cons_of_neg (p := fun q : String × α => q.1 == cand) _ ha]
        exact ih hnodup.2

theorem find?_none_of_sublist {α : Type} (P : String × α → Bool)
    (l₁ l₂ : List (String × α)) (hsub : l₁.Sublist l₂)
    (h : l₂.find? P = none) : l₁.find? P = none := by
  rw [List.find?_eq_none] at h ⊢
  exact fun a ha => h a (hsub.mem ha)

theorem foldl_trim_no_candidates {α : Type} (target : ℚ) (dur : α → ℚ)
    (cands : List String) (st : List (String × α) × ℚ)
    (hnodup : (st.1.map Prod.fst).Nodup)
    (hover : target < (cands.foldl (trimStep target dur) st).2) :
    ∀ c ∈ cands,
      (cands.foldl (trimStep target dur) st).1.find? (fun q => q.1 == c) = none := by
  induction cands generalizing st with
  | nil => intro c hc; cases hc
  | cons c0 cs ih =>
      intro c hc
      rw [List.foldl_cons] at hover ⊢
      have hnodup' : ((trimStep target dur st c0).1.map Prod.fst).Nodup :=
        ((trimStep_fst_sublist target dur st c0).map Prod.fst).nodup hnodup
      rcases List.mem_cons.mp hc with rfl | hc
      · have hst2 : ¬ st.2 ≤ target := by
          intro hle
          have hfrozen : trimStep target dur st c = st := by
            unfold trimStep
            rw [if_pos hle]
          rw [hfrozen, foldl_trim_of_le target dur cs st hle] at hover
          exact absurd hover (not_lt.mpr hle)
        have hfind' : (trimStep target dur st c).1.find? (fun q => q.1 == c) = none := by
          unfold trimStep
          rw [if_neg hst2]
          cases hf : st.1.find? (fun q => q.1 == c) with
          | none => exact hf
          | some p =>
              simp only
              exact find?_eraseP_nodup st.1 c hnodup
        exact find?_none_of_sublist _ _ _
          (foldl_trim_sublist target dur cs (trimStep target dur st c)) hfind'
      · exact ih (trimStep target dur st c0) hnodup' hover c hc

theorem foldl_trim_fixed {α : Type} (target : ℚ) (dur : α → ℚ)
    (cands : List String) (st : List (String × α) × ℚ)
    (h : ∀ c ∈ cands, st.1.find? (fun q => q.1 == c) = none) :
    cands.foldl (trimStep target dur) st = st := by
  induction cands with
  | nil => rfl
  | cons c cs ih =>
      rw [List.foldl_cons]
      have hstep : trimStep target dur st c = st := by
        unfold trimStep
        split
        · rfl
        · rw [h c (List.mem_cons_self c cs)]
      rw [hstep]
      exact ih (fun x hx => h x (List.mem_cons_of_mem c hx))

theorem sublist_sum_le (l₁ l₂ : List ℚ) (h : l₁.Sublist l₂)
    (hpos : ∀ x ∈ l₂, 0 ≤ x) : l₁.sum ≤ l₂.sum :=
  List.Sublist.sum_le_sum h hpos

theorem smart_trim_eq {α : Type} (dur : α → ℚ) (secs : List (String × α)) (target : ℚ) :
    smart_trim dur secs target =
      if (secs.map (fun q => dur q.2)).sum ≤ target then secs
      else
        (drop_candidates.foldl (trimStep target dur)
          (secs, (secs.map (fun q => dur q.2)).sum)).1 := rfl

/-! ## Planner lemmas -/

theorem qualifies_iff (script : List (String × String)) (k : String) :
    qualifies script k = true ↔
      ∃ v, scriptLookup script k = some v ∧ v ≠ "" ∧ 5 ≤ v.length ∧ k ≠ "metadata" := by
  unfold qualifies
  cases h : scriptLookup script k with
  | none => simp
  | some v =>
      simp only [Bool.and_eq_true, Bool.not_eq_true', beq_eq_false_iff_ne, ne_eq,
        decide_eq_true_eq, Option.some.injEq]
      constructor
      · rintro ⟨⟨hv, hlen⟩, hk⟩
        exact ⟨v, rfl, hv, hlen, hk⟩
      · rintro ⟨w, rfl, hv, hlen, hk⟩
        exact ⟨⟨hv, hlen⟩, hk⟩

theorem mem_active_sections (script : List (String × String)) (k : String) :
    k ∈ active_sections script ↔ qualifies script k = true := by
  unfold active_sections
  rw [List.mem_filter]
  constructor
  · exact fun h => h.2
  · intro hq
    refine ⟨List.mem_append.mpr ?_, hq⟩
    by_cases hp : k ∈ priority_order
    · exact Or.inl hp
    · right
      rw [List.mem_filter]
      constructor
      · rcases (qualifies_iff script k).mp hq with ⟨v, hv, -⟩
        unfold scriptLookup at hv
        cases hfind : script.find? (fun p => p.1 == k) with
        | none => rw [hfind] at hv; simp at hv
        | some p =>
            have hmem := List.mem_of_find?_eq_some hfind
            have hbeq := List.find?_some hfind
            have hpk : p.1 = k := by simpa using hbeq
            exact hpk ▸ List.mem_map_of_mem Prod.fst hmem
      · have hcf : priority_order.contains k = false := by
          rcases hb : priority_order.contains k with _ | _
          · rfl
          · exact absurd (List.elem_iff.mp hb) hp
        simp only [hcf, Bool.not_false]

/-- C5: a key appears in the planner output iff its value exists, is
non-empty, has stringified length at least 5 and the key is not the
metadata key; and the output lists the qualifying priority keys first, in
priority order, followed by the remaining qualifying script keys in script
order. -/
theorem c5_planner_selection_and_order (script : List (String × String)) (k : String) :
    (k ∈ active_sections script ↔
      ∃ v, scriptLookup script k = some v ∧ v ≠ "" ∧ 5 ≤ v.length ∧ k ≠ "metadata") ∧
    active_sections script =
      priority_order.filter (fun s => qualifies script s) ++
        ((script.map Prod.fst).filter (fun s => !priority_order.contains s)).filter
          (fun s => qualifies script s) := by
  constructor
  · rw [mem_active_sections, qualifies_iff]
  · unfold active_sections
    exact List.filter_append _ _

/-- C3: trimming leaves a within-budget segment list unchanged, and on the
Daily scenario with segments hook, love, career, health of duration 20
each against the Daily target of 58 it removes exactly health, leaving
hook, love, career in order with total duration 60. -/
theorem c3_trim_algorithm_daily_scenario :
    (∀ {α : Type} (dur : α → ℚ) (secs : List (String × α)) (target : ℚ),
        (secs.map (fun q => dur q.2)).sum ≤ target → smart_trim dur secs target = secs) ∧
    smart_trim id [("hook", (20 : ℚ)), ("love", 20), ("career", 20), ("health", 20)]
        (target_duration "Daily")
      = [("hook", 20), ("love", 20), ("career", 20)] ∧
    ((smart_trim id [("hook", (20 : ℚ)), ("love", 20), ("career", 20), ("health", 20)]
        (target_duration "Daily")).map Prod.snd).sum = 60 := by
  have h1 : trimStep 58 id
      ([("hook", (20 : ℚ)), ("love", 20), ("career", 20), ("health", 20)], 80) "intro"
      = ([("hook", 20), ("love", 20), ("career", 20), ("health", 20)], 80) := by
    rw [trimStep]
    norm_num
    rw [show List.find? (fun q : String × ℚ => q.1 == "intro")
        [("hook", (20 : ℚ)), ("love", 20), ("career", 20), ("health", 20)] = none from by simp]
  have h2 : trimStep 58 id
      ([("hook", (20 : ℚ)), ("love", 20), ("career", 20), ("health", 20)], 80) "health"
      = ([("hook", 20), ("love", 20), ("career", 20)], 60) := by
    rw [trimStep]
    norm_num
    rw [show List.find? (fun q : String × ℚ => q.1 == "health")
        [("hook", (20 : ℚ)), ("love", 20), ("career", 20), ("health", 20)]
        = some ("health", 20) from by simp]
    rw [show List.eraseP (fun q : String × ℚ => q.1 == "health")
        [("hook", (20 : ℚ)), ("love", 20), ("career", 20), ("health", 20)]
        = [("hook", 20), ("love", 20), ("career", 20)] from by simp [List.eraseP_cons]]
    norm_num
  have hskip : ∀ c : String, c ≠ "hook" → c ≠ "love" → c ≠ "career" →
      trimStep 58 id ([("hook", (20 : ℚ)), ("love", 20), ("career", 20)], 60) c
      = ([("hook", 20), ("love", 20), ("career", 20)], 60) := by
    intro c hh hl hc
    rw [trimStep]
    norm_num
    rw [show List.find? (fun q : String × ℚ => q.1 == c)
        [("hook", (20 : ℚ)), ("love", 20), ("career", 20)] = none from by
      rw [List.find?_eq_none]
      intro x hx hbeq
      simp only [List.mem_cons, List.not_mem_nil, or_false] at hx
      rcases hx with rfl | rfl | rfl
      · have hx1 : "hook" = c := by simpa using hbeq
        exact hh hx1.symm
      · have hx1 : "love" = c := by simpa using hbeq
        exact hl hx1.symm
      · have hx1 : "career" = c := by simpa using hbeq
        exact hc hx1.symm]
  have hmain : smart_trim id
      [("hook", (20 : ℚ)), ("love", 20), ("career", 20), ("health", 20)]
      (target_duration "Daily") = [("hook", 20), ("love", 20), ("career", 20)] := by
    rw [smart_trim, drop_candidates, target_duration]
    norm_num [List.foldl_cons, List.foldl_nil]
    rw [h1, h2, hskip "lucky_number" (by decide) (by decide) (by decide),
      hskip "lucky_color" (by decide) (by decide) (by decide),
      hskip "best_time" (by decide) (by decide) (by decide),
      hskip "money" (by decide) (by decide) (by decide)]
  refine ⟨?_, hmain, ?_⟩
  · intro α dur secs target h
    rw [smart_trim_eq, if_pos h]
  · rw [hmain]
    norm_num

/-- C7: trimming only ever removes drop candidates; the output is a
sublist of the input (original relative order), and the segments whose
names are not drop candidates are exactly preserved. -/
theorem c7_non_candidates_survive {α : Type} (dur : α → ℚ)
    (secs : List (String × α)) (target : ℚ) :
    (smart_trim dur secs target).Sublist secs ∧
    (smart_trim dur secs target).filter (fun p => !(drop_candidates.contains p.1))
      = secs.filter (fun p => !(drop_candidates.contains p.1)) := by
  rw [smart_trim_eq]
  split
  · exact ⟨List.Sublist.refl _, rfl⟩
  · exact ⟨foldl_trim_sublist _ _ _ _, foldl_trim_filter _ _ _ (fun c hc => hc) _⟩

set_option maxHeartbeats 1000000 in
/-- C6: with unique segment names and nonnegative durations (both
guaranteed by the pipeline, whose segments come from a dict and whose
durations are an audio length plus 0.3), trimming is idempotent and never
increases the total duration. -/
theorem c6_trim_idempotent_monotone {α : Type} (dur : α → ℚ)
    (secs : List (String × α)) (target : ℚ)
    (hnodup : (secs.map Prod.fst).Nodup) (hpos : ∀ p ∈ secs, 0 ≤ dur p.2) :
    smart_trim dur (smart_trim dur secs target) target = smart_trim dur secs target ∧
    ((smart_trim dur secs target).map (fun q => dur q.2)).sum
      ≤ (secs.map (fun q => dur q.2)).sum := by
  have hsub : (smart_trim dur secs target).Sublist secs := by
    rw [smart_trim_eq]
    split
    · exact List.Sublist.refl _
    · exact foldl_trim_sublist _ _ _ _
  constructor
  · have key : ∀ l : List (String × α),
        smart_trim dur secs target = l → smart_trim dur l target = l := by
      intro l hl
      by_cases h0 : (secs.map (fun q => dur q.2)).sum ≤ target
      · have hls : l = secs := by rw [← hl, smart_trim_eq, if_pos h0]
        rw [hls, smart_trim_eq, if_pos h0]
      · generalize hgen :
          ((secs, (secs.map (fun q => dur q.2)).sum) : List (String × α) × ℚ) = st0
        have hT : (drop_candidates.foldl (trimStep target dur) st0).1 = l := by
          rw [← hl, smart_trim_eq, if_neg h0, hgen]
        have hn0 : (st0.1.map Prod.fst).Nodup := by
          rw [← hgen]
          exact hnodup
        have hsum : (drop_candidates.foldl (trimStep target dur) st0).2
            = ((drop_candidates.foldl (trimStep target dur) st0).1.map
                (fun q => dur q.2)).sum :=
          foldl_trim_sum _ _ _ _ (by rw [← hgen])
        by_cases h1 : (l.map (fun q => dur q.2)).sum ≤ target
        · rw [smart_trim_eq, if_pos h1]
        · have hover : target < (drop_candidates.foldl (trimStep target dur) st0).2 := by
            rw [hsum, hT]
            exact lt_of_not_le h1
          have habs := foldl_trim_no_candidates target dur drop_candidates st0 hn0 hover
          rw [smart_trim_eq, if_neg h1]
          generalize hgen1 :
            ((l, (l.map (fun q => dur q.2)).sum) : List (String × α) × ℚ) = st1
          have hl1 : st1.1 = l := by rw [← hgen1]
          have hfind : ∀ c ∈ drop_candidates,
              st1.1.find? (fun q => q.1 == c) = none := fun c hc => by
            rw [hl1, ← hT]
            exact habs c hc
          rw [foldl_trim_fixed target dur drop_candidates st1 hfind]
          exact hl1
    exact key (smart_trim dur secs target) rfl
  · exact sublist_sum_le _ _ (hsub.map _) (fun x hx => by
      rcases List.mem_map.mp hx with ⟨p, hp, rfl⟩
      exact hpos p hp)

/-- Witness for C6 at a concrete segment list. -/
theorem c6_trim_idempotent_monotone_witness :
    ((([("hook", (20 : ℚ)), ("love", 25)] : List (String × ℚ)).map Prod.fst).Nodup ∧
      (∀ p ∈ ([("hook", (20 : ℚ)), ("love", 25)] : List (String × ℚ)), 0 ≤ id p.2)) ∧
    (smart_trim id (smart_trim id [("hook", (20 : ℚ)), ("love", 25)] 58) 58
        = smart_trim id [("hook", (20 : ℚ)), ("love", 25)] 58 ∧
      ((smart_trim id [("hook", (20 : ℚ)), ("love", 25)] 58).map (fun q => id q.2)).sum
        ≤ (([("hook", (20 : ℚ)), ("love", 25)] : List (String × ℚ)).map
            (fun q => id q.2)).sum) :=
  ⟨⟨by decide, by decide⟩,
    c6_trim_idempotent_monotone id [("hook", 20), ("love", 25)] 58 (by decide) (by decide)⟩

/-! ## Scene renderer frame loop (editor.py lines 369-412) -/

/-- Frame rate of the renderer, editor.py line 370. -/
def fps : ℕ := 30

/-- Python int() on a rational: truncation toward zero. -/
def pyInt (q : ℚ) : ℤ := if q < 0 then -(⌊-q⌋) else ⌊q⌋

/-- Frame count of editor.py line 371: total_frames = int(duration * fps). -/
def total_frames (duration : ℚ) : ℤ := pyInt (duration * (fps : ℚ))

/-- Frame timestamp of editor.py line 392: current_time = i / fps. -/
def frame_time (i : ℕ) : ℚ := (i : ℚ) / (fps : ℚ)

/-! ## Karaoke word-timing lookup (editor.py lines 394-404) -/

/-- One entry of the word-timing JSON written by the narrator (text, start,
duration); the editor also accepts an optional end field, defaulting to
start plus duration, with duration itself defaulting to 0.5. -/
structure SubtitleEntry where
  text : String
  start : ℚ
  duration : Option ℚ
  ending : Option ℚ
deriving DecidableEq

/-- End time of an entry, editor.py line 398. -/
def sub_end_time (s : SubtitleEntry) : ℚ :=
  s.ending.getD (s.start + s.duration.getD (1 / 2))

/-- The linear scan of editor.py lines 395-401: the first entry whose
half-open interval contains the frame time gives the active index; none
otherwise. -/
def active_word_aux (t : ℚ) : ℕ → List SubtitleEntry → Option ℕ
  | _, [] => none
  | i, s :: rest =>
    if s.start ≤ t ∧ t < sub_end_time s then some i else active_word_aux t (i + 1) rest

def active_word_index (subs : List SubtitleEntry) (t : ℚ) : Option ℕ :=
  active_word_aux t 0 subs

theorem active_word_aux_le (t : ℚ) (subs : List SubtitleEntry) (i j : ℕ)
    (h : active_word_aux t i subs = some j) : i ≤ j := by
  induction subs generalizing i with
  | nil => simp [active_word_aux] at h
  | cons a rest ih =>
      simp only [active_word_aux] at h
      by_cases hc : a.start ≤ t ∧ t < sub_end_time a
      · rw [if_pos hc] at h
        injection h with h
        omega
      · rw [if_neg hc] at h
        have := ih (i + 1) h
        omega

theorem active_word_aux_none (t : ℚ) (subs : List SubtitleEntry) (i : ℕ)
    (h : active_word_aux t i subs = none) :
    ∀ s ∈ subs, ¬(s.start ≤ t ∧ t < sub_end_time s) := by
  induction subs generalizing i with
  | nil => intro s hs; cases hs
  | cons a rest ih =>
      simp only [active_word_aux] at h
      by_cases hc : a.start ≤ t ∧ t < sub_end_time a
      · rw [if_pos hc] at h
        cases h
      · rw [if_neg hc] at h
        intro s hs
        rcases List.mem_cons.mp hs with rfl | hs
        · exact hc
        · exact ih (i + 1) h s hs

theorem active_word_aux_some (t : ℚ) (subs : List SubtitleEntry) (i j : ℕ)
    (h : active_word_aux t i subs = some j) :
    ∃ s, subs.get? (j - i) = some s ∧ (s.start ≤ t ∧ t < sub_end_time s) ∧
      ∀ m, m < j - i → ∀ s2, subs.get? m = some s2 →
        ¬(s2.start ≤ t ∧ t < sub_end_time s2) := by
  induction subs generalizing i with
  | nil => simp [active_word_aux] at h
  | cons a rest ih =>
      simp only [active_word_aux] at h
      by_cases hc : a.start ≤ t ∧ t < sub_end_time a
      · rw [if_pos hc] at h
        injection h with h
        subst h
        refine ⟨a, ?_, hc, ?_⟩
        · rw [Nat.sub_self]
          rfl
        · intro m hm
          rw [Nat.sub_self] at hm
          omega
      · rw [if_neg hc] at h
        have hij : i + 1 ≤ j := active_word_aux_le t rest (i + 1) j h
        obtain ⟨s, hs, hcs, hmin⟩ := ih (i + 1) h
        refine ⟨s, ?_, hcs, ?_⟩
        · have : j - i = (j - (i + 1)) + 1 := by omega
          rw [this]
          simpa using hs
        · intro m hm s2 hs2
          cases m with
          | zero =>
              have ha2 : a = s2 := by
                simpa using hs2
              rw [← ha2]
              exact hc
          | succ m2 =>
              have hm2 : m2 < j - (i + 1) := by omega
              exact hmin m2 hm2 s2 (by simpa using hs2)

/-- The word timings of the spec scenario: w0 over [0, 0.5), w1 over
[0.5, 1.0). -/
def ex_timings : List SubtitleEntry :=
  [{ text := "w0", start := 0, duration := some (1 / 2), ending := none },
   { text := "w1", start := 1 / 2, duration := some (1 / 2), ending := none }]

/-- C8: the active-word lookup returns the first index whose half-open
interval from start to the end time (start plus duration by default)
contains the frame time, and no index when no interval contains it; on
the scenario timings, time 0.6 resolves to index 1 (w1) and time 1.2 to
no active word. -/
theorem c8_active_word_lookup :
    (∀ (subs : List SubtitleEntry) (t : ℚ) (j : ℕ),
        active_word_index subs t = some j →
          ∃ s, subs.get? j = some s ∧ (s.start ≤ t ∧ t < sub_end_time s) ∧
            ∀ m, m < j → ∀ s2, subs.get? m = some s2 →
              ¬(s2.start ≤ t ∧ t < sub_end_time s2)) ∧
    (∀ (subs : List SubtitleEntry) (t : ℚ),
        active_word_index subs t = none →
          ∀ s ∈ subs, ¬(s.start ≤ t ∧ t < sub_end_time s)) ∧
    active_word_index ex_timings (3 / 5) = some 1 ∧
    active_word_index ex_timings (6 / 5) = none := by
  refine ⟨?_, ?_, ?_, ?_⟩
  · intro subs t j h
    have hspec := active_word_aux_some t subs 0 j h
    simpa using hspec
  · intro subs t h
    exact active_word_aux_none t subs 0 h
  · simp only [active_word_index, active_word_aux, ex_timings, sub_end_time]
    norm_num
  · simp only [active_word_index, active_word_aux, ex_timings, sub_end_time]
    norm_num

/-- C4 counterexample: at duration 21/20 the renderer captures
int(21/20 * 30) = 31 frames, not ceil(21/20 * 30) = 32 as claimed. -/
theorem c4_counterexample :
    total_frames (21 / 20) = 31 ∧ (⌈(21 / 20 : ℚ) * 30⌉ : ℤ) = 32 ∧
      total_frames (21 / 20) ≠ ⌈(21 / 20 : ℚ) * 30⌉ := by
  have h1 : total_frames (21 / 20) = 31 := by
    unfold total_frames pyInt
    have h30 : ((fps : ℕ) : ℚ) = 30 := by norm_num [fps]
    rw [h30, show ((21 / 20 : ℚ) * 30) = 63 / 2 by norm_num]
    rw [if_neg (by norm_num)]
    norm_num
  have h2 : (⌈(21 / 20 : ℚ) * 30⌉ : ℤ) = 32 := by
    rw [show ((21 / 20 : ℚ) * 30) = 63 / 2 by norm_num]
    rw [Int.ceil_eq_iff]
    norm_num
  refine ⟨h1, h2, ?_⟩
  rw [h1, h2]
  decide

/-- C4 amended: the renderer captures exactly int(duration * 30), that is
floor(duration * 30), frames at the fixed 30 fps rate, the frame at index
i corresponding to time i / 30. -/
theorem c4_frame_count_floor (d : ℚ) (h : 0 ≤ d) :
    total_frames d = ⌊d * 30⌋ ∧ fps = 30 ∧ (∀ i : ℕ, frame_time i = (i : ℚ) / 30) := by
  refine ⟨?_, rfl, fun i => ?_⟩
  · unfold total_frames pyInt
    have h30 : ((fps : ℕ) : ℚ) = 30 := by norm_num [fps]
    rw [h30, if_neg (not_lt.mpr (mul_nonneg h (by norm_num)))]
  · unfold frame_time
    norm_num [fps]

/-- Witness for C4 amended at duration 2. -/
theorem c4_frame_count_floor_witness :
    (0 : ℚ) ≤ 2 ∧ (total_frames 2 = ⌊(2 : ℚ) * 30⌋ ∧ fps = 30 ∧
      (∀ i : ℕ, frame_time i = (i : ℚ) / 30)) :=
  ⟨by norm_num, c4_frame_count_floor 2 (by norm_num)⟩

/-! ## Visual theme tables and resolution (editor.py lines 34-166, 185-188, 255-269) -/

/-- A color theme: gradient triple, glow color and element tag. -/
structure StyleTheme where
  grad : String × String × String
  glow : String
  element : String
deriving DecidableEq

/-- Per-sign default themes, editor.py lines 34-102. -/
def SIGN_STYLES : List (String × StyleTheme) :=
  [("aries", ⟨("#1a0a0a", "#3d1515", "#ff6b35"), "#ff4500", "fire"⟩),
   ("leo", ⟨("#1a1005", "#3d2a10", "#ffd700"), "#ffc107", "fire"⟩),
   ("sagittarius", ⟨("#1a0520", "#3d1040", "#ff8c00"), "#ff7043", "fire"⟩),
   ("taurus", ⟨("#050f08", "#0d2818", "#4caf50"), "#66bb6a", "earth"⟩),
   ("virgo", ⟨("#0a1a0a", "#1a3a1a", "#8bc34a"), "#9ccc65", "earth"⟩),
   ("capricorn", ⟨("#0a0a0a", "#1a1a1a", "#78909c"), "#90a4ae", "earth"⟩),
   ("gemini", ⟨("#0f0a1a", "#201535", "#ffeb3b"), "#fff176", "air"⟩),
   ("libra", ⟨("#150520", "#2a0a40", "#e1bee7"), "#ce93d8", "air"⟩),
   ("aquarius", ⟨("#050a1a", "#0a1535", "#4fc3f7"), "#29b6f6", "air"⟩),
   ("cancer", ⟨("#050810", "#0a1020", "#90caf9"), "#64b5f6", "water"⟩),
   ("scorpio", ⟨("#150508", "#2a0a10", "#ef5350"), "#e53935", "water"⟩),
   ("pisces", ⟨("#051015", "#0a2030", "#80deea"), "#4dd0e1", "water"⟩)]

/-- Lucky-color override themes, editor.py lines 105-166. -/
def COLOR_STYLES : List (String × StyleTheme) :=
  [("red", ⟨("#150505", "#2a0a0a", "#ef5350"), "#f44336", "fire"⟩),
   ("blue", ⟨("#050510", "#0a0a20", "#42a5f5"), "#2196f3", "water"⟩),
   ("green", ⟨("#051005", "#0a200a", "#66bb6a"), "#4caf50", "earth"⟩),
   ("yellow", ⟨("#101005", "#201a0a", "#ffee58"), "#ffeb3b", "air"⟩),
   ("white", ⟨("#101010", "#1a1a1a", "#e0e0e0"), "#ffffff", "air"⟩),
   ("black", ⟨("#000000", "#0a0a0a", "#424242"), "#757575", "earth"⟩),
   ("pink", ⟨("#150510", "#2a0a20", "#f48fb1"), "#ec407a", "fire"⟩),
   ("orange", ⟨("#150a05", "#2a140a", "#ffb74d"), "#ff9800", "fire"⟩),
   ("purple", ⟨("#0a0515", "#140a2a", "#ba68c8"), "#9c27b0", "air"⟩),
   ("brown", ⟨("#0a0805", "#1a100a", "#8d6e63"), "#795548", "earth"⟩),
   ("gold", ⟨("#151005", "#2a1a0a", "#ffd54f"), "#ffc107", "fire"⟩),
   ("silver", ⟨("#080a10", "#101520", "#b0bec5"), "#cfd8dc", "water"⟩)]

/-- The default cosmic purple theme of editor.py lines 264-269. -/
def neutral_style : StyleTheme :=
  ⟨("#0a0515", "#140a2a", "#9c27b0"), "#ce93d8", "neutral"⟩

/-- Python dict lookup in a theme table. -/
def lookupStyle (tbl : List (String × StyleTheme)) (k : String) : Option StyleTheme :=
  (tbl.find? (fun p => p.1 == k)).map Prod.snd

/-- Strip of leading and trailing whitespace on a character list. -/
def stripChars (l : List Char) : List Char :=
  ((l.dropWhile Char.isWhitespace).reverse.dropWhile Char.isWhitespace).reverse

/-- Sign-key extraction of editor.py lines 185-188, modelled on the
character list: lower-case (ASCII), first whitespace-separated token, part
before an opening parenthesis, stripped.  A name consisting only of
whitespace raises in Python; the model returns the empty key there. -/
def get_sign_key (sign_name : String) : String :=
  ⟨stripChars ((((sign_name.data.map Char.toLower).dropWhile Char.isWhitespace).takeWhile
      (fun c => !c.isWhitespace)).takeWhile (fun c => !(c == '(')))⟩

/-- Theme precedence of editor.py lines 255-269: a truthy override found
in the color table wins, then the sign default, then the neutral
fallback. -/
def resolve_style (theme_override : Option String) (sign_name : String) : StyleTheme :=
  let style0 : Option StyleTheme :=
    match theme_override with
    | some c => if !(c == "") then lookupStyle COLOR_STYLES c else none
    | none => none
  let style1 : Option StyleTheme :=
    match style0 with
    | some st => some st
    | none => lookupStyle SIGN_STYLES (get_sign_key sign_name)
  match style1 with
  | some st => st
  | none => neutral_style

/-- C9: theme precedence is override first (when the override token is in
the color table), then the sign default, then the neutral fallback; in
particular a blue override with subject Leo yields the blue theme, no
override yields the Leo fire theme, and an unknown subject with no
override yields the neutral fallback. -/
theorem c9_theme_precedence :
    (∀ (c sign : String) (st : StyleTheme),
        lookupStyle COLOR_STYLES c = some st → resolve_style (some c) sign = st) ∧
    (∀ (sign : String) (st : StyleTheme),
        lookupStyle SIGN_STYLES (get_sign_key sign) = some st →
          resolve_style none sign = st) ∧
    (∀ sign : String,
        lookupStyle SIGN_STYLES (get_sign_key sign) = none →
          resolve_style none sign = neutral_style) ∧
    resolve_style (some "blue") "Leo"
      = ⟨("#050510", "#0a0a20", "#42a5f5"), "#2196f3", "water"⟩ ∧
    resolve_style none "Leo" = ⟨("#1a1005", "#3d2a10", "#ffd700"), "#ffc107", "fire"⟩ ∧
    resolve_style none "Ophiuchus" = neutral_style := by
  refine ⟨?_, ?_, ?_, by decide, by decide, by decide⟩
  · intro c sign st h
    have hc : ¬(c = "") := by
      intro hce
      subst hce
      rw [show lookupStyle COLOR_STYLES "" = none from by decide] at h
      cases h
    simp only [resolve_style]
    rw [if_pos (by simpa using hc), h]
  · intro sign st h
    simp only [resolve_style]
    rw [h]
  · intro sign h
    simp only [resolve_style]
    rw [h]

/-! ## Production pipeline (main.py lines 106-309, editor.py lines 442-502) -/

/-- Measured audio of one section: duration (clip length plus the 0.3
buffer) and display text, main.py lines 188-200. -/
structure SectionAudio where
  duration : ℚ
  text : String
deriving DecidableEq

/-- Emotion tags recognised by the display-text regex, main.py line 164. -/
def emotion_tags : List String :=
  ["(Happy)", "(Excited)", "(Serious)", "(Caution)", "(Warm)"]

/-- Model of the tag-stripping regex of main.py line 164: each tag is
replaced by a space and the result stripped (the whitespace collapsing and
case folding of the regex are not modelled; no claim inspects display
text). -/
def strip_emotion_tags (text : String) : String :=
  (emotion_tags.foldl (fun acc tag => acc.replace tag " ") text).trim

/-- Section-specific speech phrasing, main.py lines 160-175. -/
def format_speech (sec text : String) : String :=
  if sec == "lucky_color" then "Your lucky color today is " ++ text ++ "."
  else if sec == "lucky_number" then "Your lucky number today is " ++ text ++ "."
  else if sec == "best_time" then "The best time for important activities is " ++ text ++ "."
  else text

/-- Section-specific display text, main.py lines 160-175. -/
def format_display (sec text : String) : String :=
  if sec == "lucky_color" then "Lucky Color: " ++ text
  else if sec == "lucky_number" then "Lucky Number: " ++ text
  else if sec == "best_time" then "Best Time: " ++ text
  else strip_emotion_tags text

/-- Raw-object guard of main.py lines 178-181. -/
def is_raw_object (speech : String) : Bool :=
  let t := speech.trim
  (t.startsWith "\x7b" && t.contains '\x7d') || (t.startsWith "[" && t.contains ']')

/-- Phase 1 of main.py lines 150-204: for each active section, format the
texts, skip raw objects, call the synthesizer (an oracle returning the
measured clip duration on success) and record duration plus the 0.3
buffer together with the display text. -/
def phase1 (narrate : String → Option ℚ) (script : List (String × String))
    (secs : List String) : List (String × SectionAudio) :=
  secs.filterMap (fun sec =>
    match scriptLookup script sec with
    | none => none
    | some v =>
      if is_raw_object (format_speech sec v) then none
      else
        match narrate (format_speech sec v) with
        | some d => some (sec, ⟨d + 3 / 10, format_display sec v⟩)
        | none => none)

/-- A rendered clip; only its duration matters to the assembler model. -/
structure Clip where
  duration : ℚ
deriving DecidableEq

/-- A scene-render request: the arguments given to editor.create_scene at
main.py lines 241-248 and 277-285. -/
structure SceneReq where
  sign_name : String
  text : String
  duration : ℚ
  subtitle_data : Option (List SubtitleEntry)
  theme_override : Option String
  header_text : String
  period_type : String
deriving DecidableEq

/-- Fixed intro text of main.py line 239. -/
def intro_text : String := "Unsure of your Sign? Check the Description below! ⬇️"

/-- The unconditional intro scene request of main.py lines 241-248. -/
def intro_req (sign : String) (theme_override : Option String)
    (period_type : String) : SceneReq :=
  { sign_name := sign, text := intro_text, duration := 4, subtitle_data := none,
    theme_override := theme_override, header_text := "Find Your Sign",
    period_type := period_type }

/-- main.py line 276: part of the sign before a parenthesis, stripped,
when a parenthesis occurs. -/
def clean_sign_name (sign : String) : String :=
  if sign.data.contains '(' then
    ⟨stripChars (sign.data.takeWhile (fun c => !(c == '(')))⟩
  else sign

/-- A section scene request, main.py lines 277-285. -/
def section_req (sign : String) (theme_override : Option String)
    (header_text period_type : String) (subs : Option (List SubtitleEntry))
    (a : SectionAudio) : SceneReq :=
  { sign_name := clean_sign_name sign, text := a.text, duration := a.duration,
    subtitle_data := subs, theme_override := theme_override,
    header_text := header_text, period_type := period_type }

/-- Phase 3 of main.py lines 236-297: the unconditional 4-second intro
scene (kept when its render succeeds) followed by one scene per surviving
section, rendered with the subtitle file of that section (an oracle) and
its audio attached. -/
def phase3 (render : SceneReq → Option Clip)
    (subs : String → Option (List SubtitleEntry)) (sign : String)
    (theme_override : Option String) (header_text period_type : String)
    (audios : List (String × SectionAudio)) : List Clip :=
  (render (intro_req sign theme_override period_type)).toList ++
    audios.filterMap (fun p =>
      render (section_req sign theme_override header_text period_type
        (subs p.1) p.2))

/-- Hard duration cap of editor.py line 486. -/
def MAX_DURATION : ℚ := 59

/-- assemble_final of editor.py lines 442-501, reduced to the output
duration: drop missing scenes, return nothing (writing no file) when none
remain, concatenate (duration is the sum), mix music and fade out (both
duration preserving), then subclip to the 59-second cap when exceeded.
The function has no period-type parameter: the cap applies to every
run. -/
def assemble_final (scenes : List (Option Clip)) : Option ℚ :=
  let good := scenes.filterMap id
  if good.isEmpty then none
  else
    let d := (good.map Clip.duration).sum
    some (if MAX_DURATION < d then MAX_DURATION else d)

/-- produce_video_from_script of main.py lines 106-309 with the external
effects (synthesizer, subtitle files, browser renderer) as oracles: plan
the sections, synthesize and measure, trim against the period target,
render the intro and the surviving section scenes, raise the fatal
"No scenes created." error when no scene exists, else assemble.  The
result carries the assembled output duration. -/
def produce_video_from_script (narrate : String → Option ℚ)
    (render : SceneReq → Option Clip)
    (subs : String → Option (List SubtitleEntry)) (sign : String)
    (script : List (String × String)) (theme_override : Option String)
    (period_type header_text : String) : Except String (Option ℚ) :=
  let audios := phase1 narrate script (active_sections script)
  let trimmed := smart_trim SectionAudio.duration audios (target_duration period_type)
  let scenes := phase3 render subs sign theme_override header_text period_type trimmed
  if scenes.isEmpty then Except.error "No scenes created."
  else Except.ok (assemble_final (scenes.map some))

theorem target_duration_nonneg (p : String) : 0 ≤ target_duration p := by
  unfold target_duration
  split
  · norm_num
  · norm_num

theorem active_sections_eq_nil (script : List (String × String))
    (h : ∀ p ∈ script, p.2.length < 5) : active_sections script = [] := by
  unfold active_sections
  rw [List.filter_eq_nil_iff]
  intro k hk hq
  rcases (qualifies_iff script k).mp hq with ⟨v, hv, -, hlen, -⟩
  unfold scriptLookup at hv
  cases hfind : script.find? (fun p => p.1 == k) with
  | none =>
      rw [hfind] at hv
      cases hv
  | some p =>
      rw [hfind] at hv
      injection hv with hv
      have hp := List.mem_of_find?_eq_some hfind
      have hps := h p hp
      rw [hv] at hps
      omega

theorem smart_trim_nil {α : Type} (dur : α → ℚ) (target : ℚ) (h : 0 ≤ target) :
    smart_trim dur ([] : List (String × α)) target = [] := by
  rw [smart_trim_eq]
  rw [if_pos (by simpa using h)]

theorem assemble_final_single (c : Clip) :
    assemble_final [some c]
      = some (if MAX_DURATION < c.duration then MAX_DURATION else c.duration) := by
  simp only [assemble_final]
  rw [show (List.filterMap id [some c]) = [c] from by simp]
  simp [List.map_cons]

theorem assemble_final_some_of_ne_nil (l : List Clip) (h : l ≠ []) :
    ∃ d, assemble_final (l.map some) = some d := by
  simp only [assemble_final]
  rw [show (l.map some).filterMap id = l from by simp]
  rw [if_neg (by simpa [List.isEmpty_iff] using h)]
  exact ⟨_, rfl⟩

/-- C1 (evidence for the code bug): assemble_final caps every output at
59 seconds and receives no period-type parameter, so a long-form scene
list with total duration 600 (the Monthly/Yearly target of the
orchestrator) is trimmed to 59 seconds as well. -/
theorem c1_cap_applies_to_long_form :
    assemble_final [some ⟨600⟩] = some 59 ∧ target_duration "Monthly" = 600 := by
  constructor
  · rw [assemble_final_single]
    norm_num [MAX_DURATION]
  · decide

/-- C2 counterexample: with the script mapping love to "abc" (every value
shorter than 5 characters) no section qualifies, yet with a rendering
engine that successfully renders the 4-second intro scene the run
succeeds, returning a 4-second output instead of failing. -/
theorem c2_counterexample :
    active_sections [("love", "abc")] = [] ∧
    produce_video_from_script (fun _ => none) (fun _ => some ⟨4⟩) (fun _ => none)
      "Leo" [("love", "abc")] none "Daily" "Daily Horoscope"
      = Except.ok (some 4) := by
  have hactive : active_sections [("love", "abc")] = [] := by decide
  refine ⟨hactive, ?_⟩
  simp only [produce_video_from_script, hactive, phase1, List.filterMap_nil]
  rw [smart_trim_nil SectionAudio.duration _ (target_duration_nonneg "Daily")]
  simp only [phase3, List.filterMap_nil, List.append_nil, Option.toList_some]
  rw [if_neg (by simp)]
  rw [show (List.map some [(⟨4⟩ : Clip)]) = [some ⟨4⟩] from by simp]
  rw [assemble_final_single]
  norm_num [MAX_DURATION]

/-- C2 amended: when every script value is shorter than 5 characters no
section qualifies and no section scene exists, so the run raises the
fatal "No scenes created." error exactly when the unconditional intro
scene fails to render; when the intro renders as a clip c, the run
instead succeeds with an output containing only the intro. -/
theorem c2_amended_fatal_iff_intro_fails (narrate : String → Option ℚ)
    (render : SceneReq → Option Clip)
    (subs : String → Option (List SubtitleEntry)) (sign : String)
    (script : List (String × String)) (theme_override : Option String)
    (period_type header_text : String)
    (hlen : ∀ p ∈ script, p.2.length < 5) :
    (render (intro_req sign theme_override period_type) = none →
      produce_video_from_script narrate render subs sign script theme_override
        period_type header_text = Except.error "No scenes created.") ∧
    (∀ c : Clip, render (intro_req sign theme_override period_type) = some c →
      produce_video_from_script narrate render subs sign script theme_override
        period_type header_text
        = Except.ok (some (if MAX_DURATION < c.duration then MAX_DURATION
            else c.duration))) := by
  have hactive := active_sections_eq_nil script hlen
  have hpipe : produce_video_from_script narrate render subs sign script theme_override
      period_type header_text
      = if ((render (intro_req sign theme_override period_type)).toList).isEmpty
          then Except.error "No scenes created."
          else Except.ok (assemble_final
            (((render (intro_req sign theme_override period_type)).toList).map some)) := by
    simp only [produce_video_from_script, hactive, phase1, List.filterMap_nil]
    rw [smart_trim_nil SectionAudio.duration _ (target_duration_nonneg period_type)]
    simp only [phase3, List.filterMap_nil, List.append_nil]
  constructor
  · intro h0
    rw [hpipe, h0]
    rfl
  · intro c hc
    rw [hpipe, hc]
    simp only [Option.toList_some]
    rw [if_neg (by simp)]
    rw [show (List.map some [c]) = [some c] from by simp]
    rw [assemble_final_single]

/-- Witness for C2 amended at the concrete script love ↦ "abc" with a
renderer that fails to produce the intro scene. -/
theorem c2_amended_fatal_iff_intro_fails_witness :
    (∀ p ∈ [("love", "abc")], (Prod.snd p).length < 5) ∧
    (((none : Option Clip) = none →
      produce_video_from_script (fun _ => none) (fun _ => none) (fun _ => none)
        "Leo" [("love", "abc")] none "Daily" "hdr"
        = Except.error "No scenes created.") ∧
    (∀ c : Clip, (none : Option Clip) = some c →
      produce_video_from_script (fun _ => none) (fun _ => none) (fun _ => none)
        "Leo" [("love", "abc")] none "Daily" "hdr"
        = Except.ok (some (if MAX_DURATION < c.duration then MAX_DURATION
            else c.duration)))) :=
  ⟨by decide,
    c2_amended_fatal_iff_intro_fails (fun _ => none) (fun _ => none) (fun _ => none)
      "Leo" [("love", "abc")] none "Daily" "hdr" (by decide)⟩

/-- C10: the pipeline unconditionally renders a fixed 4-second intro
scene with fixed text and the "Find Your Sign" header, not derived from
any script section and not part of the trimmed segment list; whenever
this render succeeds the scene list starts with the intro clip, so the
run has scenes to assemble and succeeds for every script and synthesis
outcome, even with zero surviving script segments. -/
theorem c10_intro_scene_guarantee (render : SceneReq → Option Clip)
    (subs : String → Option (List SubtitleEntry)) (sign : String)
    (theme_override : Option String) (period_type header_text : String) (c : Clip)
    (hintro : render (intro_req sign theme_override period_type) = some c) :
    (intro_req sign theme_override period_type).duration = 4 ∧
    (intro_req sign theme_override period_type).text = intro_text ∧
    (intro_req sign theme_override period_type).header_text = "Find Your Sign" ∧
    (∀ audios : List (String × SectionAudio),
        phase3 render subs sign theme_override header_text period_type audios
          = c :: audios.filterMap (fun p =>
              render (section_req sign theme_override header_text period_type
                (subs p.1) p.2))) ∧
    (∀ (narrate : String → Option ℚ) (script : List (String × String)),
        ∃ d : ℚ, produce_video_from_script narrate render subs sign script
          theme_override period_type header_text = Except.ok (some d)) := by
  have hphase3 : ∀ audios : List (String × SectionAudio),
      phase3 render subs sign theme_override header_text period_type audios
        = c :: audios.filterMap (fun p =>
            render (section_req sign theme_override header_text period_type
              (subs p.1) p.2)) := by
    intro audios
    simp only [phase3, hintro, Option.toList_some]
    rfl
  refine ⟨rfl, rfl, rfl, hphase3, ?_⟩
  intro narrate script
  simp only [produce_video_from_script]
  rw [hphase3]
  rw [if_neg (by simp)]
  rcases assemble_final_some_of_ne_nil
      (c :: (smart_trim SectionAudio.duration
        (phase1 narrate script (active_sections script))
        (target_duration period_type)).filterMap (fun p =>
          render (section_req sign theme_override header_text period_type
            (subs p.1) p.2)))
      (List.cons_ne_nil _ _) with ⟨d, hd⟩
  exact ⟨d, by rw [hd]⟩

/-- Witness for C10 with a renderer that returns a 4-second clip. -/
theorem c10_intro_scene_guarantee_witness :
    ((fun _ : SceneReq => some (⟨4⟩ : Clip)) (intro_req "Leo" none "Daily")
        = some (⟨4⟩ : Clip)) ∧
    ((intro_req "Leo" none "Daily").duration = 4 ∧
      (intro_req "Leo" none "Daily").text = intro_text ∧
      (intro_req "Leo" none "Daily").header_text = "Find Your Sign" ∧
      (∀ audios : List (String × SectionAudio),
          phase3 (fun _ => some ⟨4⟩) (fun _ => none) "Leo" none "hdr2" "Daily" audios
            = ⟨4⟩ :: audios.filterMap (fun _ => some ⟨4⟩)) ∧
      (∀ (narrate : String → Option ℚ) (script : List (String × String)),
          ∃ d : ℚ, produce_video_from_script narrate (fun _ => some ⟨4⟩)
            (fun _ => none) "Leo" script none "Daily" "hdr2"
            = Except.ok (some d))) :=
  ⟨rfl, c10_intro_scene_guarantee (fun _ => some ⟨4⟩) (fun _ => none) "Leo" none
    "Daily" "hdr2" ⟨4⟩ rfl⟩
